import Mathlib

/-!
Shallow embedding of the `mpe-state` Rust crate (src/lib.rs and
src/note_collection.rs): channel-allocation state for MIDI Polyphonic
Expression.  The 16-slot channel array is modelled as a `List Channel`;
all operations are translated branch-for-branch from the source.
Rust `u8`/`usize` values are modelled as `Nat` (no operation here can
overflow `u8` on the contract domain); the `f32` expression fields
(`pitch_bend`, `channel_pressure`, `timbre_control`) are carried opaquely
as `Int` — no modelled operation reads or computes with them, they are
only ever initialized to 0.  The note collection (heapless::Vec<[u8;2],128>)
is modelled as a list of pairs; only construction-empty and `is_empty`
are used by the core, per the `NoteCollection` trait.
Operations that can panic in Rust (indexing with an out-of-range channel,
`Option::unwrap` on a channel with no owning zone) are modelled as
`Option`-returning functions where a claim depends on that behaviour.
-/

namespace Mpe

/-- The two MPE zones, `Zone` in src/lib.rs. -/
inductive Zone where
  | Lower
  | Upper
deriving DecidableEq

/-- `Zone::manager_channel`: Lower → 0, Upper → 15. -/
def Zone.manager_channel : Zone → Nat
  | .Lower => 0
  | .Upper => 15

/-- `Zone::get_other`. -/
def Zone.get_other : Zone → Zone
  | .Lower => .Upper
  | .Upper => .Lower

/-- `Zone::new`: 0 → Lower, 15 → Upper, otherwise none. -/
def Zone.new (manager_channel : Nat) : Option Zone :=
  match manager_channel with
  | 0 => some .Lower
  | 15 => some .Upper
  | _ => none

/-- `ChannelType` in src/lib.rs. -/
inductive ChannelType where
  | Manager
  | Member
  | Conventional

/-- `MIDIChannel` in src/lib.rs: the per-channel expression state.
The three `f32` fields are carried as `Int` (always 0 here); notes model
the `DefaultNoteCollection` (a bounded vector of `[u8;2]` records). -/
structure MIDIChannel where
  pitch_bend_sensitivity : Nat
  pitch_bend : Int
  channel_pressure : Int
  timbre_control : Int
  notes : List (Nat × Nat)
deriving DecidableEq

/-- `MIDIChannel::default`: sensitivity 2, everything else zero/empty. -/
def MIDIChannel.default : MIDIChannel :=
  { pitch_bend_sensitivity := 2
    pitch_bend := 0
    channel_pressure := 0
    timbre_control := 0
    notes := [] }

/-- `MIDIChannel::new`: Member channels start at sensitivity 48 (MPE
default), all other roles use the plain default (2). -/
def MIDIChannel.new : ChannelType → MIDIChannel
  | .Member => { MIDIChannel.default with pitch_bend_sensitivity := 48 }
  | _ => MIDIChannel.default

/-- `Channel` in src/lib.rs: the role a physical channel currently holds. -/
inductive Channel where
  | Manager (member_channels : Nat) (channel : MIDIChannel)
  | Member (channel : MIDIChannel)
  | Conventional (channel : MIDIChannel)
deriving DecidableEq

/-- `Channel::new_member`. -/
def Channel.new_member : Channel := .Member (MIDIChannel.new .Member)

/-- `Channel::new_conventional`. -/
def Channel.new_conventional : Channel := .Conventional (MIDIChannel.new .Conventional)

/-- `Channel::new_manager`. -/
def Channel.new_manager (member_channels : Nat) : Channel :=
  .Manager member_channels (MIDIChannel.new .Manager)

/-- The `MIDIChannel` payload carried by any role (the body of
`MPEState::get_channel`'s match). -/
def Channel.payload : Channel → MIDIChannel
  | .Manager _ ch => ch
  | .Member ch => ch
  | .Conventional ch => ch

/-- Whether a channel holds the Manager role (`matches!(_, Channel::Manager {..})`). -/
def Channel.isManager : Channel → Bool
  | .Manager _ _ => true
  | _ => false

/-- `MPEState` in src/lib.rs: the 16-element channel array (here a list;
well-formed states have length 16). -/
structure MPEState where
  channels : List Channel
deriving DecidableEq

/-- `MPEState::new`: all 16 channels conventional. -/
def MPEState.new : MPEState :=
  ⟨List.replicate 16 Channel.new_conventional⟩

/-- Array indexing `self.channels[i]` (total model; in-bounds accesses
agree with the source, and every modelled operation stays in bounds on
the contract domain). -/
def MPEState.getCh (s : MPEState) (i : Nat) : Channel :=
  s.channels.getD i Channel.new_conventional

/-- Array element assignment `self.channels[i] = c`. -/
def MPEState.setCh (s : MPEState) (i : Nat) (c : Channel) : MPEState :=
  ⟨s.channels.set i c⟩

/-- Applies `f` to every slot with index in `[a, b)`; `i` is the index of
the head of the list being traversed.  This is the common shape of the
source's slice mutations (`slice.fill(v)` is `f = fun _ => v`, the
member-propagation `iter_mut().for_each` is a role-preserving `f`). -/
def mapRange (f : Channel → Channel) (a b : Nat) : Nat → List Channel → List Channel
  | _, [] => []
  | i, ch :: rest => (if a ≤ i ∧ i < b then f ch else ch) :: mapRange f a b (i + 1) rest

/-- `slice[a..b].fill(c)` on the channel array. -/
def MPEState.fillRange (s : MPEState) (r : Nat × Nat) (c : Channel) : MPEState :=
  ⟨mapRange (fun _ => c) r.1 r.2 0 s.channels⟩

/-- Rust `usize::abs_diff`. -/
def absDiff (a b : Nat) : Nat := if a < b then b - a else a - b

/-- `MPEState::compute_range`: translates a zone-relative offset range to
an absolute index range; identity for Lower, mirrored (and re-ordered to
stay ascending) for Upper. -/
def MPEState.compute_range (zone : Zone) (r : Nat × Nat) : Nat × Nat :=
  let manager_index := zone.manager_channel
  let start := absDiff r.1 manager_index
  let stop := absDiff r.2 manager_index
  match zone with
  | .Lower => (start, stop)
  | .Upper => (stop + 1, start + 1)

/-- `MPEState::zone_channel_range`: absolute index range of a zone's
manager plus members, none when the zone is disabled. -/
def MPEState.zone_channel_range (s : MPEState) (zone : Zone) : Option (Nat × Nat) :=
  match s.getCh zone.manager_channel with
  | .Manager member_channels _ =>
      some (MPEState.compute_range zone (0, member_channels + 1))
  | _ => none

/-- `MPEState::zone_member_channel_range`: absolute index range of a
zone's member channels only. -/
def MPEState.zone_member_channel_range (s : MPEState) (zone : Zone) : Option (Nat × Nat) :=
  match s.getCh zone.manager_channel with
  | .Manager member_channels _ =>
      some (MPEState.compute_range zone (1, member_channels + 1))
  | _ => none

/-- Slice `self.channels[a..b]`. -/
def MPEState.sliceCh (s : MPEState) (r : Nat × Nat) : List Channel :=
  (s.channels.drop r.1).take (r.2 - r.1)

/-- `MPEState::zone_channels`. -/
def MPEState.zone_channels (s : MPEState) (zone : Zone) : Option (List Channel) :=
  (s.zone_channel_range zone).map fun r => s.sliceCh r

/-- `MPEState::zone_member_channels`. -/
def MPEState.zone_member_channels (s : MPEState) (zone : Zone) : Option (List Channel) :=
  (s.zone_member_channel_range zone).map fun r => s.sliceCh r

/-- `self.zone_channels(z).map_or(0, |c| c.len())` as used in `config`. -/
def MPEState.zone_channels_len (s : MPEState) (zone : Zone) : Nat :=
  match s.zone_channels zone with
  | some c => c.length
  | none => 0

/-- `MPEState::config`: the zone configuration algorithm, translated
branch-for-branch (disable / grow with overlap resolution / shrink /
no-op). -/
def MPEState.config (s : MPEState) (zone : Zone) (member_channels : Nat) : MPEState :=
  let manager_index := zone.manager_channel
  let prev_member_channels : Nat :=
    match s.getCh manager_index with
    | .Manager mc _ => mc
    | _ => 0
  if member_channels = 0 then
    match s.getCh manager_index with
    | .Manager _ _ =>
        match s.zone_channel_range zone with
        | some r => s.fillRange r Channel.new_conventional
        | none => s
    | _ => s
  else if prev_member_channels < member_channels then
    let s1 : MPEState :=
      match s.getCh manager_index with
      | .Manager _ ch => s.setCh manager_index (.Manager member_channels ch)
      | _ => s.setCh manager_index (Channel.new_manager member_channels)
    let s2 := s1.fillRange
      (MPEState.compute_range zone (max prev_member_channels 1, member_channels + 1))
      Channel.new_member
    let zc := s2.zone_channels_len zone
    let ozc := s2.zone_channels_len zone.get_other
    match s2.getCh zone.get_other.manager_channel with
    | .Manager _ och =>
        if 16 - zc = 1 then
          s2.setCh zone.get_other.manager_channel Channel.new_conventional
        else if ozc > 16 - zc then
          s2.setCh zone.get_other.manager_channel (.Manager (16 - zc - 1) och)
        else s2
    | _ => s2
  else if member_channels < prev_member_channels then
    match s.getCh manager_index with
    | .Manager _ ch =>
        (s.setCh manager_index (.Manager member_channels ch)).fillRange
          (MPEState.compute_range zone (member_channels, prev_member_channels + 1))
          Channel.new_conventional
    | _ => s
  else s

/-- `MPEState::active`: true iff either end of the array holds a Manager. -/
def MPEState.active (s : MPEState) : Bool :=
  (match s.channels.head? with
   | some (Channel.Manager _ _) => true
   | _ => false) ||
  (match s.channels.getLast? with
   | some (Channel.Manager _ _) => true
   | _ => false)

/-- `MPEState::zone_by_channel`: the first of [Lower, Upper] whose full
range contains the index, none otherwise. -/
def MPEState.zone_by_channel (s : MPEState) (channel : Nat) : Option Zone :=
  [Zone.Lower, Zone.Upper].find? fun z =>
    match s.zone_channel_range z with
    | some r => decide (r.1 ≤ channel ∧ channel < r.2)
    | none => false

/-- `MPEState::get_channel`: payload of the channel at an index, none
out of bounds. -/
def MPEState.get_channel (s : MPEState) (channel : Nat) : Option MIDIChannel :=
  (s.channels.get? channel).map Channel.payload

/-- The closure applied to each member-range slot by the Member arm of
`set_pitch_bend_sensitivity` (sets the value on Member slots, leaves any
other role untouched). -/
def memberPBS (v : Nat) : Channel → Channel
  | .Member ch => .Member { ch with pitch_bend_sensitivity := v }
  | other => other

/-- `MPEState::set_pitch_bend_sensitivity`: Manager/Conventional set their
own value clamped to at least 2; a Member propagates the raw value to the
whole member range of its owning zone.  Panicking paths of the source
(index out of bounds; `unwrap` of a memberless zone) are `none`. -/
def MPEState.set_pitch_bend_sensitivity (s : MPEState) (channel v : Nat) :
    Option MPEState :=
  match s.channels.get? channel with
  | none => none
  | some (.Manager mc ch) =>
      some (s.setCh channel (.Manager mc { ch with pitch_bend_sensitivity := max v 2 }))
  | some (.Conventional ch) =>
      some (s.setCh channel (.Conventional { ch with pitch_bend_sensitivity := max v 2 }))
  | some (.Member _) =>
      match s.zone_by_channel channel with
      | none => none
      | some z =>
          match s.zone_member_channel_range z with
          | none => none
          | some r => some ⟨mapRange (memberPBS v) r.1 r.2 0 s.channels⟩

/-- `MPEState::unoccupied_channel`: first index of the member range (in
ascending absolute order) whose note collection is empty. -/
def MPEState.unoccupied_channel (s : MPEState) (zone : Zone) : Option Nat :=
  match s.zone_member_channel_range zone with
  | none => none
  | some r =>
      (List.range' r.1 (r.2 - r.1)).find? fun i =>
        match s.get_channel i with
        | some ch => ch.notes.isEmpty
        | none => false

/-! Helper lemmas about the array model. -/

theorem length_mapRange (f : Channel → Channel) (a b : Nat) :
    ∀ (i : Nat) (l : List Channel), (mapRange f a b i l).length = l.length := by
  intro i l
  induction l generalizing i with
  | nil => rfl
  | cons ch rest ih => simp [mapRange, ih]

theorem get?_mapRange (f : Channel → Channel) (a b : Nat) :
    ∀ (l : List Channel) (i j : Nat),
      (mapRange f a b i l).get? j =
        (l.get? j).map fun ch => if a ≤ i + j ∧ i + j < b then f ch else ch := by
  intro l
  induction l with
  | nil => intro i j; rfl
  | cons ch rest ih =>
    intro i j
    cases j with
    | zero => simp [mapRange]
    | succ m =>
      have := ih (i + 1) m
      simp only [mapRange, List.get?]
      rw [this]
      have harith : i + 1 + m = i + (m + 1) := by omega
      rw [harith]

theorem length_fillRange (s : MPEState) (r : Nat × Nat) (c : Channel) :
    (s.fillRange r c).channels.length = s.channels.length :=
  length_mapRange _ _ _ _ _

theorem length_setCh (s : MPEState) (i : Nat) (c : Channel) :
    (s.setCh i c).channels.length = s.channels.length :=
  List.length_set _ _ _

theorem getCh_oob (s : MPEState) (j : Nat) (h : s.channels.length ≤ j) :
    s.getCh j = Channel.new_conventional := by
  unfold MPEState.getCh List.getD
  rw [List.get?_eq_none.mpr h]
  rfl

theorem get?_eq_getCh (s : MPEState) (j : Nat) (h : j < s.channels.length) :
    s.channels.get? j = some (s.getCh j) := by
  unfold MPEState.getCh List.getD
  cases hg : s.channels.get? j with
  | none => exact absurd (List.get?_eq_none.mp hg) (by omega)
  | some c => rfl

theorem getCh_mk_mapRange (f : Channel → Channel) (a b : Nat) (s : MPEState) (j : Nat) :
    (MPEState.mk (mapRange f a b 0 s.channels)).getCh j =
      if a ≤ j ∧ j < b ∧ j < s.channels.length then f (s.getCh j) else s.getCh j := by
  unfold MPEState.getCh List.getD
  rw [show (MPEState.mk (mapRange f a b 0 s.channels)).channels = mapRange f a b 0 s.channels from rfl,
    get?_mapRange]
  cases hg : s.channels.get? j with
  | none =>
    have hlen : s.channels.length ≤ j := List.get?_eq_none.mp hg
    simp only [Option.map_none']
    rw [if_neg (by omega)]
  | some c =>
    have hlen : j < s.channels.length := by
      by_contra h
      rw [List.get?_eq_none.mpr (by omega)] at hg
      exact Option.noConfusion hg
    simp only [Option.map_some', Nat.zero_add]
    by_cases hab : a ≤ j ∧ j < b
    · rw [if_pos hab, if_pos ⟨hab.1, hab.2, hlen⟩]
      rfl
    · rw [if_neg hab, if_neg (by tauto)]

theorem getCh_fillRange (s : MPEState) (r : Nat × Nat) (c : Channel) (j : Nat) :
    (s.fillRange r c).getCh j =
      if r.1 ≤ j ∧ j < r.2 ∧ j < s.channels.length then c else s.getCh j :=
  getCh_mk_mapRange _ _ _ _ _

theorem getCh_fillRange_pair (s : MPEState) (a b : Nat) (c : Channel) (j : Nat) :
    (s.fillRange (a, b) c).getCh j =
      if a ≤ j ∧ j < b ∧ j < s.channels.length then c else s.getCh j :=
  getCh_fillRange s (a, b) c j

theorem getCh_setCh (s : MPEState) (i : Nat) (c : Channel) (j : Nat)
    (h : i < s.channels.length) :
    (s.setCh i c).getCh j = if i = j then c else s.getCh j := by
  unfold MPEState.setCh MPEState.getCh List.getD
  rw [show (MPEState.mk (s.channels.set i c)).channels = s.channels.set i c from rfl,
    List.get?_set]
  by_cases hij : i = j
  · subst hij
    rw [if_pos rfl, if_pos rfl, get?_eq_getCh s i h]
    rfl
  · rw [if_neg hij, if_neg hij]

theorem length_sliceCh (s : MPEState) (r : Nat × Nat) :
    (s.sliceCh r).length = min (r.2 - r.1) (s.channels.length - r.1) := by
  unfold MPEState.sliceCh
  rw [List.length_take, List.length_drop]

theorem get_channel_eq_of_lt (s : MPEState) (c : Nat) (h : c < s.channels.length) :
    s.get_channel c = some ((s.getCh c).payload) := by
  unfold MPEState.get_channel
  rw [get?_eq_getCh s c h]
  rfl

theorem find?_range'_eq_none {p : Nat → Bool} {a n : Nat} :
    (List.range' a n).find? p = none ↔ ∀ i, a ≤ i → i < a + n → p i = false := by
  rw [List.find?_eq_none]
  constructor
  · intro h i h1 h2
    have := h i (List.mem_range'_1.mpr ⟨h1, h2⟩)
    simpa using this
  · intro h x hx
    have hm := List.mem_range'_1.mp hx
    simp [h x hm.1 hm.2]

theorem find?_range'_eq_some {p : Nat → Bool} :
    ∀ {n a j : Nat},
      ((List.range' a n).find? p = some j ↔
        (a ≤ j ∧ j < a + n ∧ p j = true ∧ ∀ k, a ≤ k → k < j → p k = false)) := by
  intro n
  induction n with
  | zero =>
    intro a j
    constructor
    · intro h
      exact Option.noConfusion h
    · rintro ⟨h1, h2, -, -⟩
      omega
  | succ m ih =>
    intro a j
    have hr : List.range' a (m + 1) = a :: List.range' (a + 1) m := rfl
    rw [hr, List.find?_cons]
    cases hpa : p a with
    | true =>
      constructor
      · intro h
        have hj : a = j := by
          injection h
        subst hj
        exact ⟨Nat.le_refl a, by omega, hpa, fun k hk1 hk2 => absurd hk1 (by omega)⟩
      · rintro ⟨h1, h2, h3, h4⟩
        have hj : j = a := by
          by_contra hne
          have := h4 a (Nat.le_refl a) (by omega)
          rw [hpa] at this
          exact Bool.noConfusion this
        subst hj
        rfl
    | false =>
      rw [ih]
      constructor
      · rintro ⟨h1, h2, h3, h4⟩
        refine ⟨by omega, by omega, h3, ?_⟩
        intro k hk1 hk2
        rcases Nat.eq_or_lt_of_le hk1 with he | hl
        · rw [← he]
          exact hpa
        · exact h4 k (by omega) hk2
      · rintro ⟨h1, h2, h3, h4⟩
        have haj : a ≠ j := by
          intro he
          rw [← he] at h3
          rw [hpa] at h3
          exact Bool.noConfusion h3
        exact ⟨by omega, by omega, h3, fun k hk1 hk2 => h4 k (by omega) hk2⟩

theorem absDiff_of_le {a b : Nat} (h : a ≤ b) : absDiff a b = b - a := by
  unfold absDiff
  rcases Nat.eq_or_lt_of_le h with he | hl
  · subst he
    simp
  · rw [if_pos hl]

theorem absDiff_zero_right (a : Nat) : absDiff a 0 = a := by
  unfold absDiff
  simp

theorem zone_channel_range_of_manager (s : MPEState) (z : Zone) (mc : Nat) (ch : MIDIChannel)
    (hm : s.getCh z.manager_channel = Channel.Manager mc ch) :
    s.zone_channel_range z = some (MPEState.compute_range z (0, mc + 1)) := by
  unfold MPEState.zone_channel_range
  rw [hm]

theorem zone_member_channel_range_of_manager (s : MPEState) (z : Zone) (mc : Nat)
    (ch : MIDIChannel) (hm : s.getCh z.manager_channel = Channel.Manager mc ch) :
    s.zone_member_channel_range z = some (MPEState.compute_range z (1, mc + 1)) := by
  unfold MPEState.zone_member_channel_range
  rw [hm]

theorem compute_range_lower (a b : Nat) :
    MPEState.compute_range Zone.Lower (a, b) = (a, b) := by
  unfold MPEState.compute_range
  simp only [Zone.manager_channel]
  rw [absDiff_zero_right, absDiff_zero_right]

theorem compute_range_upper (a b : Nat) (ha : a ≤ 15) (hb : b ≤ 15) :
    MPEState.compute_range Zone.Upper (a, b) = (16 - b, 16 - a) := by
  unfold MPEState.compute_range
  simp only [Zone.manager_channel]
  rw [absDiff_of_le ha, absDiff_of_le hb]
  rw [show 15 - b + 1 = 16 - b by omega, show 15 - a + 1 = 16 - a by omega]

theorem zone_channels_len_of_manager (s : MPEState) (z : Zone) (mc : Nat) (ch : MIDIChannel)
    (h16 : s.channels.length = 16) (hmc : mc ≤ 14)
    (hm : s.getCh z.manager_channel = Channel.Manager mc ch) :
    s.zone_channels_len z = mc + 1 := by
  unfold MPEState.zone_channels_len MPEState.zone_channels
  rw [zone_channel_range_of_manager s z mc ch hm]
  cases z with
  | Lower =>
    rw [compute_range_lower]
    simp only [Option.map_some']
    rw [length_sliceCh, h16]
    simp only []
    omega
  | Upper =>
    rw [compute_range_upper 0 (mc + 1) (by omega) (by omega)]
    simp only [Option.map_some']
    rw [length_sliceCh, h16]
    simp only []
    omega

/-! The claims. -/

/-- C1 [code_bug]: the claim says invariants I1-I4 hold after every
sequence of `config(zone, n)` calls with `0 ≤ n ≤ 14` from a fresh state.
The shrink branch of `config` fills zone-relative offsets
`requested ..= prev` — one slot too many at the low end, converting the
last *kept* member channel to Conventional.  After `config(Lower, 5)` then
`config(Lower, 3)`, the Lower manager records `member_channels = 3`, but
index 3 (the third member slot, still inside the member range 1..=3) is
Conventional: the Member run contiguous to the manager has length 2, so
I2 and I3 fail.  This theorem evaluates the code at that failing input. -/
theorem c1_shrink_breaks_member_run :
    (((MPEState.new.config Zone.Lower 5).config Zone.Lower 3).getCh 0 =
      Channel.new_manager 3) ∧
    (((MPEState.new.config Zone.Lower 5).config Zone.Lower 3).getCh 1 =
      Channel.new_member) ∧
    (((MPEState.new.config Zone.Lower 5).config Zone.Lower 3).getCh 2 =
      Channel.new_member) ∧
    (((MPEState.new.config Zone.Lower 5).config Zone.Lower 3).getCh 3 =
      Channel.new_conventional) ∧
    (((MPEState.new.config Zone.Lower 5).config Zone.Lower 3).zone_member_channel_range
      Zone.Lower = some (1, 4)) := by
  decide

/-- C2 [confirmed]: from a fresh state, `config(Lower, 15)` then
`config(Upper, 4)` shrinks the Lower zone to 10 member channels
(`member_channels = remaining - 1 = 10`) while the Upper zone occupies
5 channels. -/
theorem c2_overlap_shrinks_lower_to_ten :
    ((((MPEState.new.config Zone.Lower 15).config Zone.Upper 4).zone_member_channels
        Zone.Lower).map List.length = some 10) ∧
    (((MPEState.new.config Zone.Lower 15).config Zone.Upper 4).getCh 0 =
      Channel.new_manager 10) ∧
    ((((MPEState.new.config Zone.Lower 15).config Zone.Upper 4).zone_channels
        Zone.Upper).map List.length = some 5) := by
  decide

/-- C4 [corrected] counterexample: on the state reached by
`config(Upper, 4)` from fresh, every member channel (indices 11..14) has
an empty note collection.  The member channel closest to the Upper
manager — lowest zone-relative offset, as the claim reads — is index 14,
but `unoccupied_channel(Upper)` returns 11: the scan is in ascending
absolute index order, which for the Upper zone is descending
zone-relative order. -/
theorem c4_counterexample_upper_scan_order :
    ((MPEState.new.config Zone.Upper 4).unoccupied_channel Zone.Upper = some 11) ∧
    ((MPEState.new.config Zone.Upper 4).zone_member_channel_range Zone.Upper =
      some (11, 15)) ∧
    ((MPEState.new.config Zone.Upper 4).getCh 14 = Channel.new_member) ∧
    (((MPEState.new.config Zone.Upper 4).getCh 14).payload.notes.isEmpty = true) := by
  decide

/-- C7 [confirmed]: `active` is true iff channel 0 or channel 15 holds a
Manager, and the spec's deactivation scenario behaves as claimed. -/
theorem c7_active_iff_manager_slots :
    (∀ s : MPEState, s.channels.length = 16 →
      (s.active = true ↔
        ((s.getCh 0).isManager = true ∨ (s.getCh 15).isManager = true))) ∧
    (((MPEState.new.config Zone.Lower 10).config Zone.Upper 4).active = true) ∧
    (((((MPEState.new.config Zone.Lower 10).config Zone.Upper 4).config Zone.Lower 0).config
        Zone.Upper 0).active = false) := by
  refine ⟨?_, by decide, by decide⟩
  intro s h16
  unfold MPEState.active
  rw [← List.get?_zero, List.getLast?_eq_get?, h16,
    show (16 : Nat) - 1 = 15 from rfl,
    get?_eq_getCh s 0 (by omega), get?_eq_getCh s 15 (by omega)]
  cases h0 : s.getCh 0 <;> cases h15 : s.getCh 15 <;> simp [Channel.isManager]

/-- C7 witness: the general part applied to the fresh state. -/
theorem c7_active_iff_manager_slots_witness :
    (MPEState.new.channels.length = 16) ∧
    (MPEState.new.active = true ↔
      ((MPEState.new.getCh 0).isManager = true ∨ (MPEState.new.getCh 15).isManager = true)) :=
  ⟨by decide, c7_active_iff_manager_slots.1 MPEState.new (by decide)⟩

/-- C8 [confirmed]: `compute_range` is the identity for the Lower zone;
for the Upper zone with `a ≤ b ≤ 15` it maps `a..b` to `(16-b)..(16-a)`,
an ascending absolute range selecting exactly the mirrored indices
`15 - o` for `o` in `a..b`. -/
theorem c8_compute_range_translation :
    (∀ a b : Nat, MPEState.compute_range Zone.Lower (a, b) = (a, b)) ∧
    (∀ a b : Nat, a ≤ b → b ≤ 15 →
      (MPEState.compute_range Zone.Upper (a, b) = (16 - b, 16 - a) ∧
       ∀ i : Nat, (16 - b ≤ i ∧ i < 16 - a) ↔ ∃ o, a ≤ o ∧ o < b ∧ i = 15 - o)) := by
  constructor
  · exact compute_range_lower
  · intro a b hab hb15
    refine ⟨compute_range_upper a b (by omega) hb15, ?_⟩
    intro i
    constructor
    · rintro ⟨h1, h2⟩
      exact ⟨15 - i, by omega, by omega, by omega⟩
    · rintro ⟨o, h1, h2, h3⟩
      omega

/-- C8 witness: the Upper-zone part applied at `a = 2`, `b = 5`. -/
theorem c8_compute_range_translation_witness :
    MPEState.compute_range Zone.Upper (2, 5) = (16 - 5, 16 - 2) ∧
    ∀ i : Nat, (16 - 5 ≤ i ∧ i < 16 - 2) ↔ ∃ o, 2 ≤ o ∧ o < 5 ∧ i = 15 - o :=
  c8_compute_range_translation.2 2 5 (by decide) (by decide)

/-- C9 [confirmed]: `get_channel` is total — it returns the channel's
`MIDIChannel` payload for any index up to 15 (whatever the role) and
`none` for any index of 16 or more. -/
theorem c9_get_channel_totality :
    ∀ (s : MPEState) (c : Nat), s.channels.length = 16 →
      ((c ≤ 15 → s.get_channel c = some ((s.getCh c).payload)) ∧
       (16 ≤ c → s.get_channel c = none)) := by
  intro s c h16
  constructor
  · intro hc
    exact get_channel_eq_of_lt s c (by omega)
  · intro hc
    unfold MPEState.get_channel
    rw [List.get?_eq_none.mpr (by omega)]
    rfl

/-- C9 witness: applied to the fresh state at indices 3 and 16. -/
theorem c9_get_channel_totality_witness :
    (MPEState.new.channels.length = 16) ∧
    (MPEState.new.get_channel 3 = some ((MPEState.new.getCh 3).payload)) ∧
    (MPEState.new.get_channel 16 = none) :=
  ⟨by decide,
   (c9_get_channel_totality MPEState.new 3 (by decide)).1 (by decide),
   (c9_get_channel_totality MPEState.new 16 (by decide)).2 (by decide)⟩

theorem set_pbs_member_arm (s : MPEState) (i v : Nat) (mch : MIDIChannel) (z : Zone)
    (hi : s.channels.get? i = some (Channel.Member mch))
    (hz : s.zone_by_channel i = some z) :
    ∃ mc ch, s.getCh z.manager_channel = Channel.Manager mc ch ∧
      s.set_pitch_bend_sensitivity i v =
        some (MPEState.mk (mapRange (memberPBS v)
          (MPEState.compute_range z (1, mc + 1)).1
          (MPEState.compute_range z (1, mc + 1)).2 0 s.channels)) := by
  have hp := List.find?_some hz
  simp only [] at hp
  cases hm : s.getCh z.manager_channel with
  | Member ch =>
    rw [show s.zone_channel_range z = none by unfold MPEState.zone_channel_range; rw [hm]] at hp
    exact Bool.noConfusion hp
  | Conventional ch =>
    rw [show s.zone_channel_range z = none by unfold MPEState.zone_channel_range; rw [hm]] at hp
    exact Bool.noConfusion hp
  | Manager mc ch =>
    refine ⟨mc, ch, rfl, ?_⟩
    unfold MPEState.set_pitch_bend_sensitivity
    rw [hi]
    simp only []
    rw [hz]
    simp only []
    rw [zone_member_channel_range_of_manager s z mc ch hm]

/-- C5 [confirmed]: setting pitch-bend sensitivity on a Member channel
propagates the value to every Member slot of the owning zone's member
range and changes nothing else: slots outside the range are untouched,
and Conventional or Manager slots anywhere (the zone's own manager, the
other zone's manager, conventional channels) keep their exact prior
state. -/
theorem c5_member_sensitivity_propagation :
    ∀ (s : MPEState) (i v : Nat) (mch : MIDIChannel) (z : Zone),
      s.channels.get? i = some (Channel.Member mch) →
      s.zone_by_channel i = some z →
      ∃ s' r, s.set_pitch_bend_sensitivity i v = some s' ∧
        s.zone_member_channel_range z = some r ∧
        (∀ j ch, r.1 ≤ j → j < r.2 → s.getCh j = Channel.Member ch →
          s'.getCh j = Channel.Member { ch with pitch_bend_sensitivity := v }) ∧
        (∀ j, j < r.1 ∨ r.2 ≤ j → s'.getCh j = s.getCh j) ∧
        (∀ j ch, s.getCh j = Channel.Conventional ch → s'.getCh j = Channel.Conventional ch) ∧
        (∀ j mc ch, s.getCh j = Channel.Manager mc ch → s'.getCh j = Channel.Manager mc ch) := by
  intro s i v mch z hi hz
  obtain ⟨mc, ch, hm, hset⟩ := set_pbs_member_arm s i v mch z hi hz
  refine ⟨_, MPEState.compute_range z (1, mc + 1), hset,
    zone_member_channel_range_of_manager s z mc ch hm, ?_, ?_, ?_, ?_⟩
  · intro j chj hj1 hj2 hjm
    have hjlen : j < s.channels.length := by
      by_contra hc
      rw [getCh_oob s j (by omega)] at hjm
      exact Channel.noConfusion hjm
    rw [getCh_mk_mapRange, if_pos ⟨hj1, hj2, hjlen⟩, hjm]
    rfl
  · intro j hj
    rw [getCh_mk_mapRange, if_neg (by omega)]
  · intro j chj hjc
    rw [getCh_mk_mapRange]
    by_cases hin : (MPEState.compute_range z (1, mc + 1)).1 ≤ j ∧
        j < (MPEState.compute_range z (1, mc + 1)).2 ∧ j < s.channels.length
    · rw [if_pos hin, hjc]
      rfl
    · rw [if_neg hin]
      exact hjc
  · intro j mcj chj hjm
    rw [getCh_mk_mapRange]
    by_cases hin : (MPEState.compute_range z (1, mc + 1)).1 ≤ j ∧
        j < (MPEState.compute_range z (1, mc + 1)).2 ∧ j < s.channels.length
    · rw [if_pos hin, hjm]
      rfl
    · rw [if_neg hin]
      exact hjm

/-- C5 witness: the spec's propagation scenario — Lower zone with 6
members, Upper with 7, sensitivity 12 set on Member channel 3. -/
theorem c5_member_sensitivity_propagation_witness :
    (((MPEState.new.config Zone.Lower 6).config Zone.Upper 7).channels.get? 3 =
      some (Channel.Member (MIDIChannel.new .Member))) ∧
    (((MPEState.new.config Zone.Lower 6).config Zone.Upper 7).zone_by_channel 3 =
      some Zone.Lower) ∧
    (∃ s' r,
      ((MPEState.new.config Zone.Lower 6).config Zone.Upper 7).set_pitch_bend_sensitivity
        3 12 = some s' ∧
      ((MPEState.new.config Zone.Lower 6).config Zone.Upper 7).zone_member_channel_range
        Zone.Lower = some r ∧
      (∀ j ch, r.1 ≤ j → j < r.2 →
        ((MPEState.new.config Zone.Lower 6).config Zone.Upper 7).getCh j =
          Channel.Member ch →
        s'.getCh j = Channel.Member { ch with pitch_bend_sensitivity := 12 }) ∧
      (∀ j, j < r.1 ∨ r.2 ≤ j →
        s'.getCh j = ((MPEState.new.config Zone.Lower 6).config Zone.Upper 7).getCh j) ∧
      (∀ j ch,
        ((MPEState.new.config Zone.Lower 6).config Zone.Upper 7).getCh j =
          Channel.Conventional ch → s'.getCh j = Channel.Conventional ch) ∧
      (∀ j mc ch,
        ((MPEState.new.config Zone.Lower 6).config Zone.Upper 7).getCh j =
          Channel.Manager mc ch → s'.getCh j = Channel.Manager mc ch)) :=
  ⟨by decide, by decide,
   c5_member_sensitivity_propagation ((MPEState.new.config Zone.Lower 6).config Zone.Upper 7)
     3 12 (MIDIChannel.new .Member) Zone.Lower (by decide) (by decide)⟩

/-- C6 [confirmed]: on a Manager- or Conventional-tagged channel,
`set_pitch_bend_sensitivity` sets that channel's own value to
`max v 2` (clamped to a floor of 2) and leaves every other channel
unchanged. -/
theorem c6_direct_set_clamped :
    ∀ (s : MPEState) (i v : Nat), i < s.channels.length →
      ((∀ mc ch, s.getCh i = Channel.Manager mc ch →
          s.set_pitch_bend_sensitivity i v =
            some (s.setCh i
              (Channel.Manager mc { ch with pitch_bend_sensitivity := max v 2 })) ∧
          ∀ j, j ≠ i →
            (s.setCh i
              (Channel.Manager mc { ch with pitch_bend_sensitivity := max v 2 })).getCh j =
              s.getCh j) ∧
       (∀ ch, s.getCh i = Channel.Conventional ch →
          s.set_pitch_bend_sensitivity i v =
            some (s.setCh i
              (Channel.Conventional { ch with pitch_bend_sensitivity := max v 2 })) ∧
          ∀ j, j ≠ i →
            (s.setCh i
              (Channel.Conventional { ch with pitch_bend_sensitivity := max v 2 })).getCh j =
              s.getCh j)) := by
  intro s i v h
  have hq := get?_eq_getCh s i h
  constructor
  · intro mc ch hm
    rw [hm] at hq
    constructor
    · unfold MPEState.set_pitch_bend_sensitivity
      rw [hq]
    · intro j hj
      rw [getCh_setCh s i _ j h, if_neg (by omega)]
  · intro ch hm
    rw [hm] at hq
    constructor
    · unfold MPEState.set_pitch_bend_sensitivity
      rw [hq]
    · intro j hj
      rw [getCh_setCh s i _ j h, if_neg (by omega)]

/-- C6 witness: setting value 1 on the Lower manager (channel 0) of the
spec's scenario state stores `max 1 2 = 2` there and touches nothing
else. -/
theorem c6_direct_set_clamped_witness :
    (3 < ((MPEState.new.config Zone.Lower 6).config Zone.Upper 7).channels.length) ∧
    (((MPEState.new.config Zone.Lower 6).config Zone.Upper 7).getCh 0 =
      Channel.Manager 6 MIDIChannel.default) ∧
    (((MPEState.new.config Zone.Lower 6).config Zone.Upper 7).set_pitch_bend_sensitivity 0 1 =
      some (((MPEState.new.config Zone.Lower 6).config Zone.Upper 7).setCh 0
        (Channel.Manager 6
          { MIDIChannel.default with pitch_bend_sensitivity := max 1 2 }))) ∧
    (∀ j, j ≠ 0 →
      (((MPEState.new.config Zone.Lower 6).config Zone.Upper 7).setCh 0
        (Channel.Manager 6
          { MIDIChannel.default with pitch_bend_sensitivity := max 1 2 })).getCh j =
        ((MPEState.new.config Zone.Lower 6).config Zone.Upper 7).getCh j) :=
  ⟨by decide, by decide,
   ((c6_direct_set_clamped ((MPEState.new.config Zone.Lower 6).config Zone.Upper 7) 0 1
      (by decide)).1 6 MIDIChannel.default (by decide)).1,
   ((c6_direct_set_clamped ((MPEState.new.config Zone.Lower 6).config Zone.Upper 7) 0 1
      (by decide)).1 6 MIDIChannel.default (by decide)).2⟩

/-- C10 [confirmed]: the Member-propagation path applies the requested
value verbatim — no minimum-2 clamp.  For any `v < 2`, every Member slot
of the owning zone's member range ends up reporting exactly `v`. -/
theorem c10_member_propagation_unclamped :
    ∀ (s : MPEState) (i v : Nat) (mch : MIDIChannel) (z : Zone),
      v < 2 →
      s.channels.get? i = some (Channel.Member mch) →
      s.zone_by_channel i = some z →
      ∃ s' r, s.set_pitch_bend_sensitivity i v = some s' ∧
        s.zone_member_channel_range z = some r ∧
        ∀ j ch, r.1 ≤ j → j < r.2 → s.getCh j = Channel.Member ch →
          (s'.getCh j).payload.pitch_bend_sensitivity = v := by
  intro s i v mch z hv hi hz
  obtain ⟨mc, ch, hm, hset⟩ := set_pbs_member_arm s i v mch z hi hz
  refine ⟨_, MPEState.compute_range z (1, mc + 1), hset,
    zone_member_channel_range_of_manager s z mc ch hm, ?_⟩
  intro j chj hj1 hj2 hjm
  have hjlen : j < s.channels.length := by
    by_contra hc
    rw [getCh_oob s j (by omega)] at hjm
    exact Channel.noConfusion hjm
  rw [getCh_mk_mapRange, if_pos ⟨hj1, hj2, hjlen⟩, hjm]
  rfl

/-- C10 witness: value 0 set on Member channel 3 of the scenario state
leaves the Lower members reporting exactly 0. -/
theorem c10_member_propagation_unclamped_witness :
    ((0 : Nat) < 2) ∧
    (((MPEState.new.config Zone.Lower 6).config Zone.Upper 7).channels.get? 3 =
      some (Channel.Member (MIDIChannel.new .Member))) ∧
    (((MPEState.new.config Zone.Lower 6).config Zone.Upper 7).zone_by_channel 3 =
      some Zone.Lower) ∧
    (∃ s' r,
      ((MPEState.new.config Zone.Lower 6).config Zone.Upper 7).set_pitch_bend_sensitivity
        3 0 = some s' ∧
      ((MPEState.new.config Zone.Lower 6).config Zone.Upper 7).zone_member_channel_range
        Zone.Lower = some r ∧
      ∀ j ch, r.1 ≤ j → j < r.2 →
        ((MPEState.new.config Zone.Lower 6).config Zone.Upper 7).getCh j =
          Channel.Member ch →
        (s'.getCh j).payload.pitch_bend_sensitivity = 0) :=
  ⟨by decide, by decide, by decide,
   c10_member_propagation_unclamped ((MPEState.new.config Zone.Lower 6).config Zone.Upper 7)
     3 0 (MIDIChannel.new .Member) Zone.Lower (by decide) (by decide) (by decide)⟩


/-- C3 [corrected] counterexample: in the spec scenario
`config(Lower, 10)`, `config(Upper, 4)`, `config(Lower, 14)`, channel 14
is an Upper member before the third call, yet after it channel 14 is a
(fresh Lower) Member, not Conventional — refuting the claim that, when
`remaining ≤ 1`, the opposite zone's manager *and all its members*
revert to Conventional.  Only the manager (channel 15) does. -/
theorem c3_counterexample_members_not_conventional :
    (((MPEState.new.config Zone.Lower 10).config Zone.Upper 4).getCh 14 =
      Channel.new_member) ∧
    (((MPEState.new.config Zone.Lower 10).config Zone.Upper 4).zone_by_channel 14 =
      some Zone.Upper) ∧
    ((((MPEState.new.config Zone.Lower 10).config Zone.Upper 4).config Zone.Lower 14).getCh 14 =
      Channel.new_member) ∧
    ((((MPEState.new.config Zone.Lower 10).config Zone.Upper 4).config Zone.Lower 14).getCh 15 =
      Channel.new_conventional) := by
  decide

/-- C3 [corrected] amended: during a growth call, `remaining ≤ 1` forces
`requested = 14` (the grown zone then occupies 15 channels), and in that
case the opposite zone's *manager* reverts to Conventional, disabling
that zone; the opposite zone's former member slots are not reverted —
they are re-initialized as members of the growing zone.  The scenario
conjunct checks the spec's concrete sequence: channel 15 (Upper's
manager index) ends Conventional. -/
theorem c3_amended_remaining_one_disables_other :
    (∀ (s : MPEState) (z : Zone),
      s.channels.length = 16 →
      (∀ mc ch, s.getCh z.manager_channel = Channel.Manager mc ch → mc < 14) →
      ∀ omc och, s.getCh z.get_other.manager_channel = Channel.Manager omc och →
      (s.config z 14).getCh z.get_other.manager_channel = Channel.new_conventional) ∧
    ((((MPEState.new.config Zone.Lower 10).config Zone.Upper 4).config Zone.Lower 14).getCh 15 =
      Channel.new_conventional) := by
  refine ⟨?_, by decide⟩

  intro s z h16 hprev omc och hom
  cases z with
  | Lower =>
    simp only [Zone.get_other, Zone.manager_channel] at hprev hom ⊢
    unfold MPEState.config
    simp only [Zone.get_other, Zone.manager_channel]
    split
    · next h => exact absurd h (by omega)
    · next hne =>
      split
      · next hgrow =>
        cases hmi : s.getCh 0 with
        | Manager p pch =>
          have hp14 : p < 14 := hprev p pch hmi
          dsimp only []
          rw [compute_range_lower]
          have h2g15 : ((s.setCh 0 (Channel.Manager 14 pch)).fillRange (max p 1, 14 + 1)
              Channel.new_member).getCh 15 = Channel.Manager omc och := by
            rw [getCh_fillRange_pair, length_setCh]
            rw [if_neg (by omega)]
            rw [getCh_setCh s 0 _ 15 (by omega), if_neg (by omega)]
            exact hom
          have h2g0 : ((s.setCh 0 (Channel.Manager 14 pch)).fillRange (max p 1, 14 + 1)
              Channel.new_member).getCh 0 = Channel.Manager 14 pch := by
            rw [getCh_fillRange_pair, length_setCh]
            rw [if_neg (by omega)]
            rw [getCh_setCh s 0 _ 0 (by omega), if_pos rfl]
          have h2len : ((s.setCh 0 (Channel.Manager 14 pch)).fillRange (max p 1, 14 + 1)
              Channel.new_member).channels.length = 16 := by
            rw [length_fillRange, length_setCh, h16]
          have hzc : ((s.setCh 0 (Channel.Manager 14 pch)).fillRange (max p 1, 14 + 1)
              Channel.new_member).zone_channels_len Zone.Lower = 15 :=
            zone_channels_len_of_manager _ Zone.Lower 14 pch h2len (by omega) h2g0
          rw [h2g15]
          dsimp only []
          rw [hzc]
          rw [if_pos (show 16 - 15 = 1 by omega)]
          rw [getCh_setCh _ 15 _ 15 (by omega), if_pos rfl]
        | Member c0 =>
          dsimp only []
          rw [compute_range_lower]
          have h2g15 : ((s.setCh 0 (Channel.new_manager 14)).fillRange (max 0 1, 14 + 1)
              Channel.new_member).getCh 15 = Channel.Manager omc och := by
            rw [getCh_fillRange_pair, length_setCh]
            rw [if_neg (by omega)]
            rw [getCh_setCh s 0 _ 15 (by omega), if_neg (by omega)]
            exact hom
          have h2g0 : ((s.setCh 0 (Channel.new_manager 14)).fillRange (max 0 1, 14 + 1)
              Channel.new_member).getCh 0 =
                Channel.Manager 14 (MIDIChannel.new ChannelType.Manager) := by
            rw [getCh_fillRange_pair, length_setCh]
            rw [if_neg (by omega)]
            rw [getCh_setCh s 0 _ 0 (by omega), if_pos rfl]
            rfl
          have h2len : ((s.setCh 0 (Channel.new_manager 14)).fillRange (max 0 1, 14 + 1)
              Channel.new_member).channels.length = 16 := by
            rw [length_fillRange, length_setCh, h16]
          have hzc : ((s.setCh 0 (Channel.new_manager 14)).fillRange (max 0 1, 14 + 1)
              Channel.new_member).zone_channels_len Zone.Lower = 15 :=
            zone_channels_len_of_manager _ Zone.Lower 14 _ h2len (by omega) h2g0
          rw [h2g15]
          dsimp only []
          rw [hzc]
          rw [if_pos (show 16 - 15 = 1 by omega)]
          rw [getCh_setCh _ 15 _ 15 (by omega), if_pos rfl]
        | Conventional c0 =>
          dsimp only []
          rw [compute_range_lower]
          have h2g15 : ((s.setCh 0 (Channel.new_manager 14)).fillRange (max 0 1, 14 + 1)
              Channel.new_member).getCh 15 = Channel.Manager omc och := by
            rw [getCh_fillRange_pair, length_setCh]
            rw [if_neg (by omega)]
            rw [getCh_setCh s 0 _ 15 (by omega), if_neg (by omega)]
            exact hom
          have h2g0 : ((s.setCh 0 (Channel.new_manager 14)).fillRange (max 0 1, 14 + 1)
              Channel.new_member).getCh 0 =
                Channel.Manager 14 (MIDIChannel.new ChannelType.Manager) := by
            rw [getCh_fillRange_pair, length_setCh]
            rw [if_neg (by omega)]
            rw [getCh_setCh s 0 _ 0 (by omega), if_pos rfl]
            rfl
          have h2len : ((s.setCh 0 (Channel.new_manager 14)).fillRange (max 0 1, 14 + 1)
              Channel.new_member).channels.length = 16 := by
            rw [length_fillRange, length_setCh, h16]
          have hzc : ((s.setCh 0 (Channel.new_manager 14)).fillRange (max 0 1, 14 + 1)
              Channel.new_member).zone_channels_len Zone.Lower = 15 :=
            zone_channels_len_of_manager _ Zone.Lower 14 _ h2len (by omega) h2g0
          rw [h2g15]
          dsimp only []
          rw [hzc]
          rw [if_pos (show 16 - 15 = 1 by omega)]
          rw [getCh_setCh _ 15 _ 15 (by omega), if_pos rfl]
      · next hnogrow =>
        exfalso
        cases hmi : s.getCh 0 with
        | Manager p pch =>
          rw [hmi] at hnogrow
          dsimp only [] at hnogrow
          exact absurd (hprev p pch hmi) hnogrow
        | Member c0 =>
          rw [hmi] at hnogrow
          dsimp only [] at hnogrow
          omega
        | Conventional c0 =>
          rw [hmi] at hnogrow
          dsimp only [] at hnogrow
          omega
  | Upper =>
    simp only [Zone.get_other, Zone.manager_channel] at hprev hom ⊢
    unfold MPEState.config
    simp only [Zone.get_other, Zone.manager_channel]
    split
    · next h => exact absurd h (by omega)
    · next hne =>
      split
      · next hgrow =>
        cases hmi : s.getCh 15 with
        | Manager p pch =>
          have hp14 : p < 14 := hprev p pch hmi
          dsimp only []
          rw [compute_range_upper (max p 1) (14 + 1) (by omega) (by omega)]
          have h2g0 : ((s.setCh 15 (Channel.Manager 14 pch)).fillRange
              (16 - (14 + 1), 16 - max p 1) Channel.new_member).getCh 0 =
                Channel.Manager omc och := by
            rw [getCh_fillRange_pair, length_setCh]
            rw [if_neg (by omega)]
            rw [getCh_setCh s 15 _ 0 (by omega), if_neg (by omega)]
            exact hom
          have h2g15 : ((s.setCh 15 (Channel.Manager 14 pch)).fillRange
              (16 - (14 + 1), 16 - max p 1) Channel.new_member).getCh 15 =
                Channel.Manager 14 pch := by
            rw [getCh_fillRange_pair, length_setCh]
            rw [if_neg (by omega)]
            rw [getCh_setCh s 15 _ 15 (by omega), if_pos rfl]
          have h2len : ((s.setCh 15 (Channel.Manager 14 pch)).fillRange
              (16 - (14 + 1), 16 - max p 1) Channel.new_member).channels.length = 16 := by
            rw [length_fillRange, length_setCh, h16]
          have hzc : ((s.setCh 15 (Channel.Manager 14 pch)).fillRange
              (16 - (14 + 1), 16 - max p 1) Channel.new_member).zone_channels_len
                Zone.Upper = 15 :=
            zone_channels_len_of_manager _ Zone.Upper 14 pch h2len (by omega) h2g15
          rw [h2g0]
          dsimp only []
          rw [hzc]
          rw [if_pos (show 16 - 15 = 1 by omega)]
          rw [getCh_setCh _ 0 _ 0 (by omega), if_pos rfl]
        | Member c0 =>
          dsimp only []
          rw [compute_range_upper (max 0 1) (14 + 1) (by omega) (by omega)]
          have h2g0 : ((s.setCh 15 (Channel.new_manager 14)).fillRange
              (16 - (14 + 1), 16 - max 0 1) Channel.new_member).getCh 0 =
                Channel.Manager omc och := by
            rw [getCh_fillRange_pair, length_setCh]
            rw [if_neg (by omega)]
            rw [getCh_setCh s 15 _ 0 (by omega), if_neg (by omega)]
            exact hom
          have h2g15 : ((s.setCh 15 (Channel.new_manager 14)).fillRange
              (16 - (14 + 1), 16 - max 0 1) Channel.new_member).getCh 15 =
                Channel.Manager 14 (MIDIChannel.new ChannelType.Manager) := by
            rw [getCh_fillRange_pair, length_setCh]
            rw [if_neg (by omega)]
            rw [getCh_setCh s 15 _ 15 (by omega), if_pos rfl]
            rfl
          have h2len : ((s.setCh 15 (Channel.new_manager 14)).fillRange
              (16 - (14 + 1), 16 - max 0 1) Channel.new_member).channels.length = 16 := by
            rw [length_fillRange, length_setCh, h16]
          have hzc : ((s.setCh 15 (Channel.new_manager 14)).fillRange
              (16 - (14 + 1), 16 - max 0 1) Channel.new_member).zone_channels_len
                Zone.Upper = 15 :=
            zone_channels_len_of_manager _ Zone.Upper 14 _ h2len (by omega) h2g15
          rw [h2g0]
          dsimp only []
          rw [hzc]
          rw [if_pos (show 16 - 15 = 1 by omega)]
          rw [getCh_setCh _ 0 _ 0 (by omega), if_pos rfl]
        | Conventional c0 =>
          dsimp only []
          rw [compute_range_upper (max 0 1) (14 + 1) (by omega) (by omega)]
          have h2g0 : ((s.setCh 15 (Channel.new_manager 14)).fillRange
              (16 - (14 + 1), 16 - max 0 1) Channel.new_member).getCh 0 =
                Channel.Manager omc och := by
            rw [getCh_fillRange_pair, length_setCh]
            rw [if_neg (by omega)]
            rw [getCh_setCh s 15 _ 0 (by omega), if_neg (by omega)]
            exact hom
          have h2g15 : ((s.setCh 15 (Channel.new_manager 14)).fillRange
              (16 - (14 + 1), 16 - max 0 1) Channel.new_member).getCh 15 =
                Channel.Manager 14 (MIDIChannel.new ChannelType.Manager) := by
            rw [getCh_fillRange_pair, length_setCh]
            rw [if_neg (by omega)]
            rw [getCh_setCh s 15 _ 15 (by omega), if_pos rfl]
            rfl
          have h2len : ((s.setCh 15 (Channel.new_manager 14)).fillRange
              (16 - (14 + 1), 16 - max 0 1) Channel.new_member).channels.length = 16 := by
            rw [length_fillRange, length_setCh, h16]
          have hzc : ((s.setCh 15 (Channel.new_manager 14)).fillRange
              (16 - (14 + 1), 16 - max 0 1) Channel.new_member).zone_channels_len
                Zone.Upper = 15 :=
            zone_channels_len_of_manager _ Zone.Upper 14 _ h2len (by omega) h2g15
          rw [h2g0]
          dsimp only []
          rw [hzc]
          rw [if_pos (show 16 - 15 = 1 by omega)]
          rw [getCh_setCh _ 0 _ 0 (by omega), if_pos rfl]
      · next hnogrow =>
        exfalso
        cases hmi : s.getCh 15 with
        | Manager p pch =>
          rw [hmi] at hnogrow
          dsimp only [] at hnogrow
          exact absurd (hprev p pch hmi) hnogrow
        | Member c0 =>
          rw [hmi] at hnogrow
          dsimp only [] at hnogrow
          omega
        | Conventional c0 =>
          rw [hmi] at hnogrow
          dsimp only [] at hnogrow
          omega

/-- C3 witness: the general part applied to the scenario state (Lower
zone at 10 members, Upper at 4) growing Lower to 14. -/
theorem c3_amended_remaining_one_disables_other_witness :
    (((MPEState.new.config Zone.Lower 10).config Zone.Upper 4).channels.length = 16) ∧
    (((MPEState.new.config Zone.Lower 10).config Zone.Upper 4).getCh 15 =
      Channel.Manager 4 MIDIChannel.default) ∧
    ((((MPEState.new.config Zone.Lower 10).config Zone.Upper 4).config Zone.Lower 14).getCh
      Zone.Lower.get_other.manager_channel = Channel.new_conventional) :=
  ⟨by decide, by decide,
   c3_amended_remaining_one_disables_other.1
     ((MPEState.new.config Zone.Lower 10).config Zone.Upper 4) Zone.Lower (by decide)
     (by
       intro mc ch h
       rw [show ((MPEState.new.config Zone.Lower 10).config Zone.Upper 4).getCh
         Zone.Lower.manager_channel = Channel.Manager 10 MIDIChannel.default from by decide] at h
       injection h with h1 h2
       omega)
     4 MIDIChannel.default (by decide)⟩


/-- C4 [corrected] amended: `unoccupied_channel` returns none iff the
zone is disabled or every member channel's note collection is non-empty;
otherwise it scans the member range in ascending *absolute* index order
and returns the first member channel with an empty note collection — the
minimum absolute index, which for the Lower zone coincides with the
lowest zone-relative offset but for the Upper zone is the *highest*
zone-relative offset (farthest from the manager). -/
theorem c4_amended_scan_ascending_absolute :
    ∀ (s : MPEState) (z : Zone), s.channels.length = 16 →
      ((s.zone_member_channel_range z = none → s.unoccupied_channel z = none) ∧
       (∀ mc ch, s.getCh z.manager_channel = Channel.Manager mc ch → mc ≤ 14 →
         ∃ r, s.zone_member_channel_range z = some r ∧
           ((s.unoccupied_channel z = none ↔
              ∀ i, r.1 ≤ i → i < r.2 → (s.getCh i).payload.notes.isEmpty = false) ∧
            (∀ j, s.unoccupied_channel z = some j ↔
              (r.1 ≤ j ∧ j < r.2 ∧ (s.getCh j).payload.notes.isEmpty = true ∧
               ∀ k, r.1 ≤ k → k < j → (s.getCh k).payload.notes.isEmpty = false))))) := by
  intro s z h16
  constructor
  · intro h
    unfold MPEState.unoccupied_channel
    rw [h]
  · intro mc ch hm hmc
    obtain ⟨a, b, hab⟩ : ∃ a b, MPEState.compute_range z (1, mc + 1) = (a, b) := ⟨_, _, rfl⟩
    have hbounds : 1 ≤ a ∧ a ≤ b ∧ b ≤ 15 := by
      cases z with
      | Lower =>
        rw [compute_range_lower] at hab
        have h1 := congrArg Prod.fst hab
        have h2 := congrArg Prod.snd hab
        simp only [] at h1 h2
        omega
      | Upper =>
        rw [compute_range_upper 1 (mc + 1) (by omega) (by omega)] at hab
        have h1 := congrArg Prod.fst hab
        have h2 := congrArg Prod.snd hab
        simp only [] at h1 h2
        omega
    have hmr : s.zone_member_channel_range z = some (a, b) := by
      rw [zone_member_channel_range_of_manager s z mc ch hm, hab]
    refine ⟨(a, b), hmr, ?_, ?_⟩
    · unfold MPEState.unoccupied_channel
      rw [hmr]
      rw [find?_range'_eq_none]
      constructor
      · intro h i h1 h2
        have := h i h1 (by omega)
        rw [get_channel_eq_of_lt s i (by omega)] at this
        exact this
      · intro h i h1 h2
        rw [get_channel_eq_of_lt s i (by omega)]
        exact h i h1 (by omega)
    · intro j
      unfold MPEState.unoccupied_channel
      rw [hmr]
      rw [find?_range'_eq_some]
      constructor
      · rintro ⟨h1, h2, h3, h4⟩
        rw [get_channel_eq_of_lt s j (by omega)] at h3
        refine ⟨h1, by omega, h3, ?_⟩
        intro k hk1 hk2
        have := h4 k hk1 hk2
        rw [get_channel_eq_of_lt s k (by omega)] at this
        exact this
      · rintro ⟨h1, h2, h3, h4⟩
        refine ⟨h1, by omega, ?_, ?_⟩
        · rw [get_channel_eq_of_lt s j (by omega)]
          exact h3
        · intro k hk1 hk2
          rw [get_channel_eq_of_lt s k (by omega)]
          exact h4 k hk1 hk2


/-- C4 witness: applied to the state `config(Upper, 4)` from fresh. -/
theorem c4_amended_scan_ascending_absolute_witness :
    ((MPEState.new.config Zone.Upper 4).channels.length = 16) ∧
    ((MPEState.new.config Zone.Upper 4).getCh Zone.Upper.manager_channel =
      Channel.Manager 4 MIDIChannel.default) ∧
    (∃ r, (MPEState.new.config Zone.Upper 4).zone_member_channel_range Zone.Upper = some r ∧
      (((MPEState.new.config Zone.Upper 4).unoccupied_channel Zone.Upper = none ↔
         ∀ i, r.1 ≤ i → i < r.2 →
           ((MPEState.new.config Zone.Upper 4).getCh i).payload.notes.isEmpty = false) ∧
       (∀ j, (MPEState.new.config Zone.Upper 4).unoccupied_channel Zone.Upper = some j ↔
         (r.1 ≤ j ∧ j < r.2 ∧
          ((MPEState.new.config Zone.Upper 4).getCh j).payload.notes.isEmpty = true ∧
          ∀ k, r.1 ≤ k → k < j →
            ((MPEState.new.config Zone.Upper 4).getCh k).payload.notes.isEmpty = false)))) :=
  ⟨by decide, by decide,
   (c4_amended_scan_ascending_absolute (MPEState.new.config Zone.Upper 4) Zone.Upper
      (by decide)).2 4 MIDIChannel.default (by decide) (by decide)⟩

end Mpe
